import Mathlib

/-!
Verification of the watchexec jaq extension library
(crates/cli/src/filterer/proglib.rs).

The development shallowly embeds the value mirror (jaq Val vs. thread-safe
SyncVal), the shared key-value store, the argument-coercion helpers
(string_arg! / int_arg!), and the native functions (log, printout, printerr,
kv_clear, kv_store, kv_fetch, file_read, file_meta, file_size, hash,
file_hash) as pure Lean functions, and proves the specified properties.

Modelling conventions:
- Rust f64 payloads are modelled by their bit pattern (a Nat): the code under
  verification only ever copies floats, never computes with them.
- Rust isize is modelled by Int; casts (isize as u64, u64 as isize) are
  modelled explicitly with twos-complement wrapping.
- Rc<str> / Arc<str> payloads are modelled by String; the conversions
  s.to_string().into() copy contents verbatim and are modelled as identity.
- indexmap::IndexMap is modelled as an insertion-ordered association list
  with the exact IndexMap::insert semantics (replace in place or append).
- A lazily produced single-element output stream (Box::new(once(r))) is
  modelled by its single element, of type Except Error Val.
- File contents are byte lists (List Nat, each < 256); the filesystem and
  the blake3 digest are parameters of the theorems (external collaborators).
-/

/-- Evaluation value of the jaq engine (jaq_core::Val), as used by
proglib.rs: Null, Bool, Int (isize), Float (f64, modelled by bit pattern),
Num (decimal number text), Str, Arr, Obj (insertion-ordered map). -/
inductive Val where
  | null
  | bool (b : Bool)
  | int (i : Int)
  | float (bits : Nat)
  | num (s : String)
  | str (s : String)
  | arr (a : List Val)
  | obj (m : List (String × Val))
deriving Repr

/-- Thread-safe mirror value (SyncVal in proglib.rs): structurally identical
to Val, with atomically-refcounted payloads (ownership is not visible in the
shallow embedding, so the shape is the same). -/
inductive SyncVal where
  | null
  | bool (b : Bool)
  | int (i : Int)
  | float (bits : Nat)
  | num (s : String)
  | str (s : String)
  | arr (a : List SyncVal)
  | obj (m : List (String × SyncVal))
deriving Repr

theorem sizeOf_lt_of_mem_val {v : Val} {a : List Val} (h : v ∈ a) :
    sizeOf v < 1 + sizeOf a := by
  have := List.sizeOf_lt_of_mem h
  omega

theorem sizeOf_snd_lt_of_mem_val {kv : String × Val} {m : List (String × Val)}
    (h : kv ∈ m) : sizeOf kv.2 < 1 + sizeOf m := by
  have h1 := List.sizeOf_lt_of_mem h
  have h2 : sizeOf kv = 1 + sizeOf kv.1 + sizeOf kv.2 := by
    cases kv; rfl
  omega

theorem sizeOf_lt_of_mem_sync {v : SyncVal} {a : List SyncVal} (h : v ∈ a) :
    sizeOf v < 1 + sizeOf a := by
  have := List.sizeOf_lt_of_mem h
  omega

theorem sizeOf_snd_lt_of_mem_sync {kv : String × SyncVal}
    {m : List (String × SyncVal)} (h : kv ∈ m) : sizeOf kv.2 < 1 + sizeOf m := by
  have h1 := List.sizeOf_lt_of_mem h
  have h2 : sizeOf kv = 1 + sizeOf kv.1 + sizeOf kv.2 := by
    cases kv; rfl
  omega

/-- Membership test on the keys of an association list (IndexMap key
lookup). -/
def keyMem (k : String) : List (String × α) → Bool
  | [] => false
  | p :: ps => k == p.1 || keyMem k ps

/-- IndexMap::insert semantics: when the key is already present, replace its
value in place (keeping its position); otherwise append the pair at the
end. -/
def indexInsert (m : List (String × α)) (k : String) (v : α) :
    List (String × α) :=
  if keyMem k m then m.map (fun p => if p.1 == k then (k, v) else p)
  else m ++ [(k, v)]

/-- Building a fresh IndexMap by inserting a sequence of pairs in order, as
the for-loops of the From impls in proglib.rs do. -/
def objInsertAll (ps : List (String × α)) : List (String × α) :=
  ps.foldl (fun acc p => indexInsert acc p.1 p.2) []

/-- Key uniqueness of an association list; an IndexMap holds each key at
most once by construction, so maps reaching the From impls satisfy it. -/
def nodupKeys : List (String × α) → Bool
  | [] => true
  | p :: ps => !keyMem p.1 ps && nodupKeys ps

/-- Conversion From<&Val> for SyncVal (proglib.rs lines 91-116): a structural
deep copy; arrays element-wise in order; objects by iterating the map in
insertion order and inserting each converted entry into a fresh map. -/
def valToSync : Val → SyncVal
  | .null => .null
  | .bool b => .bool b
  | .int i => .int i
  | .float f => .float f
  | .num s => .num s
  | .str s => .str s
  | .arr a => .arr (a.attach.map (fun p => valToSync p.1))
  | .obj m => .obj (objInsertAll (m.attach.map (fun p => (p.1.1, valToSync p.1.2))))
decreasing_by
  · simp only [Val.arr.sizeOf_spec]; exact sizeOf_lt_of_mem_val p.2
  · simp only [Val.obj.sizeOf_spec]; exact sizeOf_snd_lt_of_mem_val p.2

/-- Conversion From<&SyncVal> for Val (proglib.rs lines 118-143): the exact
mirror image of valToSync. -/
def syncToVal : SyncVal → Val
  | .null => .null
  | .bool b => .bool b
  | .int i => .int i
  | .float f => .float f
  | .num s => .num s
  | .str s => .str s
  | .arr a => .arr (a.attach.map (fun p => syncToVal p.1))
  | .obj m => .obj (objInsertAll (m.attach.map (fun p => (p.1.1, syncToVal p.1.2))))
decreasing_by
  · simp only [SyncVal.arr.sizeOf_spec]; exact sizeOf_lt_of_mem_sync p.2
  · simp only [SyncVal.obj.sizeOf_spec]; exact sizeOf_snd_lt_of_mem_sync p.2

/-- Representable evaluation values: every object node in the tree has
pairwise-distinct keys, which is an invariant of the IndexMap the jaq engine
builds objects with. -/
def wfVal : Val → Bool
  | .null => true
  | .bool _ => true
  | .int _ => true
  | .float _ => true
  | .num _ => true
  | .str _ => true
  | .arr a => a.attach.all (fun p => wfVal p.1)
  | .obj m => nodupKeys m && m.attach.all (fun p => wfVal p.1.2)
decreasing_by
  · simp only [Val.arr.sizeOf_spec]; exact sizeOf_lt_of_mem_val p.2
  · simp only [Val.obj.sizeOf_spec]; exact sizeOf_snd_lt_of_mem_val p.2

theorem valToSync_arr (a : List Val) :
    valToSync (.arr a) = .arr (a.map valToSync) := by
  rw [valToSync]
  simp [List.attach_map_val]

theorem valToSync_obj (m : List (String × Val)) :
    valToSync (.obj m) =
      .obj (objInsertAll (m.map (fun kv => (kv.1, valToSync kv.2)))) := by
  rw [valToSync]
  rw [List.attach_map_val m (fun kv => (kv.1, valToSync kv.2))]

theorem syncToVal_arr (a : List SyncVal) :
    syncToVal (.arr a) = .arr (a.map syncToVal) := by
  rw [syncToVal]
  simp [List.attach_map_val]

theorem syncToVal_obj (m : List (String × SyncVal)) :
    syncToVal (.obj m) =
      .obj (objInsertAll (m.map (fun kv => (kv.1, syncToVal kv.2)))) := by
  rw [syncToVal]
  rw [List.attach_map_val m (fun kv => (kv.1, syncToVal kv.2))]

theorem all_attach_eq (l : List α) (f : α → Bool) :
    l.attach.all (fun p => f p.1) = l.all f := by
  rw [Bool.eq_iff_iff]
  simp

theorem wfVal_arr (a : List Val) :
    wfVal (.arr a) = a.all wfVal := by
  rw [wfVal]
  exact all_attach_eq a wfVal

theorem wfVal_obj (m : List (String × Val)) :
    wfVal (.obj m) = (nodupKeys m && m.all (fun kv => wfVal kv.2)) := by
  rw [wfVal]
  rw [all_attach_eq m (fun kv => wfVal kv.2)]

theorem keyMem_iff {k : String} {l : List (String × α)} :
    keyMem k l = true ↔ k ∈ l.map Prod.fst := by
  induction l with
  | nil => simp [keyMem]
  | cons p ps ih => simp [keyMem, ih]

theorem nodupKeys_iff {l : List (String × α)} :
    nodupKeys l = true ↔ (l.map Prod.fst).Nodup := by
  induction l with
  | nil => simp [nodupKeys]
  | cons p ps ih =>
    rw [nodupKeys, Bool.and_eq_true, List.map_cons, List.nodup_cons, ih,
      ← keyMem_iff]
    cases h : keyMem p.1 ps <;> simp [h]

theorem insertAll_go (l : List (String × α)) :
    ∀ acc : List (String × α), ((acc ++ l).map Prod.fst).Nodup →
      l.foldl (fun acc p => indexInsert acc p.1 p.2) acc = acc ++ l := by
  induction l with
  | nil => intro acc _; simp
  | cons p ps ih =>
    intro acc h
    have hnotin : ¬ p.1 ∈ acc.map Prod.fst := by
      simp only [List.map_append, List.map_cons, List.nodup_append,
        List.nodup_cons, List.Disjoint] at h
      intro hc
      exact h.2.2 hc (by simp)
    have hk : keyMem p.1 acc = false := by
      rw [← Bool.not_eq_true, keyMem_iff]
      exact hnotin
    have hstep : indexInsert acc p.1 p.2 = acc ++ [p] := by
      rw [indexInsert, hk]
      simp
    rw [List.foldl_cons, hstep, ih (acc ++ [p]) (by simpa using h)]
    simp

theorem objInsertAll_eq_of_nodup {l : List (String × α)}
    (h : nodupKeys l = true) : objInsertAll l = l := by
  rw [objInsertAll, insertAll_go l [] (by simpa using nodupKeys_iff.mp h)]
  simp

theorem keys_map_vals (l : List (String × α)) (g : String × α → β) :
    (l.map (fun kv => (kv.1, g kv))).map Prod.fst = l.map Prod.fst := by
  simp [List.map_map]

/-- Custom induction principle for the nested inductive Val, with pointwise
hypotheses for array elements and object entry values. -/
theorem val_ind (P : Val → Prop) (h0 : P .null) (h1 : ∀ b, P (.bool b))
    (h2 : ∀ i, P (.int i)) (h3 : ∀ f, P (.float f)) (h4 : ∀ s, P (.num s))
    (h5 : ∀ s, P (.str s)) (h6 : ∀ a, (∀ v ∈ a, P v) → P (.arr a))
    (h7 : ∀ m, (∀ kv ∈ m, P kv.2) → P (.obj m)) : ∀ v, P v
  | .null => h0
  | .bool b => h1 b
  | .int i => h2 i
  | .float f => h3 f
  | .num s => h4 s
  | .str s => h5 s
  | .arr a => h6 a (fun v hv => val_ind P h0 h1 h2 h3 h4 h5 h6 h7 v)
  | .obj m => h7 m (fun kv hkv => val_ind P h0 h1 h2 h3 h4 h5 h6 h7 kv.2)
decreasing_by
  · simp only [Val.arr.sizeOf_spec]; exact sizeOf_lt_of_mem_val hv
  · simp only [Val.obj.sizeOf_spec]; exact sizeOf_snd_lt_of_mem_val hkv

theorem all_wf_of_wf_arr {a : List Val} (h : wfVal (.arr a) = true) :
    ∀ v ∈ a, wfVal v = true := by
  rw [wfVal_arr] at h
  exact fun v hv => List.all_eq_true.mp h v hv

theorem wf_obj_parts {m : List (String × Val)} (h : wfVal (.obj m) = true) :
    nodupKeys m = true ∧ ∀ kv ∈ m, wfVal kv.2 = true := by
  rw [wfVal_obj, Bool.and_eq_true] at h
  exact ⟨h.1, fun kv hkv => List.all_eq_true.mp h.2 kv hkv⟩

theorem nodupKeys_map_vals {l : List (String × α)} (g : String × α → β)
    (h : nodupKeys l = true) :
    nodupKeys (l.map (fun kv => (kv.1, g kv))) = true := by
  rw [nodupKeys_iff, keys_map_vals]
  exact nodupKeys_iff.mp h

/-- C1: round-trip law of the value mirror. For every representable
evaluation value v (every object node has pairwise-distinct keys, the
IndexMap invariant), converting v to a SyncVal by the From<&Val> impl and
back by the From<&SyncVal> impl yields exactly v: key sets and scalar
values preserved, array order preserved exactly, decimal numeric text
preserved byte-for-byte. Both directions are total Lean functions, so no
error case exists. -/
theorem c1_mirror_roundtrip (v : Val) (h : wfVal v = true) :
    syncToVal (valToSync v) = v := by
  revert h
  induction v using val_ind with
  | h0 => intro _; simp [valToSync, syncToVal]
  | h1 b => intro _; simp [valToSync, syncToVal]
  | h2 i => intro _; simp [valToSync, syncToVal]
  | h3 f => intro _; simp [valToSync, syncToVal]
  | h4 s => intro _; simp [valToSync, syncToVal]
  | h5 s => intro _; simp [valToSync, syncToVal]
  | h6 a ih =>
    intro h
    rw [valToSync_arr, syncToVal_arr, List.map_map]
    have he : a.map (syncToVal ∘ valToSync) = a.map id :=
      List.map_congr_left (fun v hv => ih v hv (all_wf_of_wf_arr h v hv))
    rw [he, List.map_id]
  | h7 m ih =>
    intro h
    obtain ⟨hnd, hall⟩ := wf_obj_parts h
    rw [valToSync_obj,
      objInsertAll_eq_of_nodup (nodupKeys_map_vals (fun kv => valToSync kv.2) hnd),
      syncToVal_obj, List.map_map,
      objInsertAll_eq_of_nodup (l := m.map _)]
    · have he : m.map ((fun kv => (kv.1, syncToVal kv.2)) ∘
          (fun kv => (kv.1, valToSync kv.2))) = m.map id := by
        apply List.map_congr_left
        intro kv hkv
        have : syncToVal (valToSync kv.2) = kv.2 := ih kv hkv (hall kv hkv)
        simp [Function.comp, this]
      rw [he, List.map_id]
    · rw [← List.map_map]
      exact nodupKeys_map_vals (fun kv => syncToVal kv.2)
        (nodupKeys_map_vals (fun kv => valToSync kv.2) hnd)

/-- Concrete nested value exercising every representable constructor, used
to instantiate the round-trip law. -/
def mirrorSample : Val :=
  .obj [("a", .arr [.int 1, .str "x", .num "3.14"]), ("b", .bool true),
    ("c", .null), ("d", .float 42)]

theorem c1_mirror_roundtrip_witness :
    syncToVal (valToSync mirrorSample) = mirrorSample :=
  c1_mirror_roundtrip mirrorSample
    (by simp [mirrorSample, wfVal, wfVal_arr, wfVal_obj, nodupKeys, keyMem])

/-- Evaluation errors of the jaq engine as visible in proglib.rs: the code
itself only builds Error::Custom with a message; errors propagated from
argument sub-expressions may be any engine error, modelled by an opaque
tag. -/
inductive Error where
  | custom (msg : String)
  | engine (tag : Nat)
deriving Repr, DecidableEq

/-- Rendering of a Val in the style of the derived Debug impl that the
format specifier in the string_arg!/int_arg! messages invokes; the derived
impl lives in the jaq crate, so only its shape (variant name plus payload)
is modelled. -/
def debugVal : Val → String
  | .null => "Null"
  | .bool b => "Bool(" ++ toString b ++ ")"
  | .int i => "Int(" ++ toString i ++ ")"
  | .float f => "Float(" ++ toString f ++ ")"
  | .num s => "Num(\"" ++ s ++ "\")"
  | .str s => "Str(\"" ++ s ++ "\")"
  | .arr a =>
    "Arr([" ++ String.intercalate ", " (a.attach.map (fun p => debugVal p.1)) ++ "])"
  | .obj m =>
    "Obj(\x7b" ++ String.intercalate ", "
      (m.attach.map (fun p => "\"" ++ p.1.1 ++ "\": " ++ debugVal p.1.2)) ++ "\x7d)"
decreasing_by
  · simp only [Val.arr.sizeOf_spec]; exact sizeOf_lt_of_mem_val p.2
  · simp only [Val.obj.sizeOf_spec]; exact sizeOf_snd_lt_of_mem_val p.2

/-- First element of the lazily evaluated stream of an argument
sub-expression, as obtained by args[n].run((ctx, val)).next(): either no
element, or an error, or a value. -/
abbrev ArgOutcome := Option (Except Error Val)

/-- string_arg! macro (proglib.rs lines 44-53): coerce the first value
produced by the argument sub-expression to a string, with the three failure
outcomes distinguished by its match. -/
def string_arg (arg : ArgOutcome) : Except Error String :=
  match arg with
  | some (.ok (.str v)) => .ok v
  | some (.ok val) => .error (.custom ("expected string but got " ++ debugVal val))
  | some (.error e) => .error e
  | none => .error (.custom "value expected but none found")

/-- int_arg! macro (proglib.rs lines 55-64): coerce the first value produced
by the argument sub-expression to an integer (the call sites cast it with
the as operator; the cast is modelled at each call site). -/
def int_arg (arg : ArgOutcome) : Except Error Int :=
  match arg with
  | some (.ok (.int v)) => .ok v
  | some (.ok val) => .error (.custom ("expected int but got " ++ debugVal val))
  | some (.error e) => .error e
  | none => .error (.custom "value expected but none found")

/-- Rust str::to_ascii_lowercase: map the 26 ASCII uppercase letters to
lowercase, leave every other character unchanged. -/
def asciiLowercase (s : String) : String :=
  String.mk (s.data.map (fun c =>
    if 'A' ≤ c && c ≤ 'Z' then Char.ofNat (c.toNat + 32) else c))

/-- Level names recognized by the log_action! macro (proglib.rs lines
66-77). -/
def logLevelKnown (s : String) : Bool :=
  s == "trace" || s == "debug" || s == "info" || s == "warn" || s == "error"

/-- Continuation passed by the engine to an update hook; every hook in
proglib.rs ignores it, so its exact shape is irrelevant and it is modelled
as a value transformer. -/
abbrev UpdateCont := Val → Except Error Val

/-- Run hook of the log filter (proglib.rs lines 155-182): coerce the first
argument to a string level name, dispatch case-insensitively through
log_action! (the tracing emission is an effect outside the embedding), and
pass the input value through; an unrecognized level aborts. -/
def logRun (arg0 : ArgOutcome) (val : Val) : Except Error Val :=
  match string_arg arg0 with
  | .error e => .error e
  | .ok level =>
    if logLevelKnown (asciiLowercase level) then .ok val
    else .error (.custom "invalid log level")

/-- Update hook of the log filter: the source registers a second closure
whose body is written identically to the run closure, ignoring the
continuation. -/
def logUpdate (arg0 : ArgOutcome) (val : Val) (c : UpdateCont) :
    Except Error Val :=
  match string_arg arg0 with
  | .error e => .error e
  | .ok level =>
    if logLevelKnown (asciiLowercase level) then .ok val
    else .error (.custom "invalid log level")

/-- Run hook of printout (proglib.rs lines 184-198): println! of the value
(an I/O effect outside the embedding) and pass-through. -/
def printoutRun (val : Val) : Except Error Val := .ok val

/-- Update hook of printout, written identically to the run hook. -/
def printoutUpdate (val : Val) (c : UpdateCont) : Except Error Val := .ok val

/-- Run hook of printerr (proglib.rs lines 200-214): eprintln! of the value
and pass-through. -/
def printerrRun (val : Val) : Except Error Val := .ok val

/-- Update hook of printerr, written identically to the run hook. -/
def printerrUpdate (val : Val) (c : UpdateCont) : Except Error Val := .ok val

/-- Shared key-value store contents (the DashMap payload); insertion and
lookup are keyed exactly, so an association list with replace-or-append
insertion models one consistent snapshot of it. -/
abbrev Kv := List (String × SyncVal)

def kvLookup (kv : Kv) (k : String) : Option SyncVal :=
  match kv with
  | [] => none
  | p :: ps => if k == p.1 then some p.2 else kvLookup ps k

/-- Run hook of kv_clear (proglib.rs lines 216-227): clear the store, pass
the value through. -/
def kvClearRun (kv : Kv) (val : Val) : Kv × Except Error Val :=
  ([], .ok val)

/-- Run hook of kv_store (proglib.rs lines 229-245): coerce the key
argument, insert the mirrored input value under it, pass the input value
through. -/
def kvStoreRun (kv : Kv) (arg0 : ArgOutcome) (val : Val) :
    Kv × Except Error Val :=
  match string_arg arg0 with
  | .error e => (kv, .error e)
  | .ok key => (indexInsert kv key (valToSync val), .ok val)

/-- Run hook of kv_fetch (proglib.rs lines 247-265): coerce the key
argument, look it up, convert the stored mirror back or produce Null when
the key is absent. -/
def kvFetchRun (kv : Kv) (arg0 : ArgOutcome) (val : Val) :
    Kv × Except Error Val :=
  match string_arg arg0 with
  | .error e => (kv, .error e)
  | .ok key =>
    (kv, .ok (match kvLookup kv key with
      | some sv => syncToVal sv
      | none => .null))

/-- Rust numeric cast isize as u64 (twos-complement wrap), applied to the
byte cap of file_read by the take call. -/
def isizeToU64 (i : Int) : Nat := (i % (2 ^ 64 : Int)).toNat

/-- Rust numeric cast u64 as isize (twos-complement wrap), applied to the
metadata byte length by file_size. -/
def u64ToIsize (n : Nat) : Int :=
  if n % 2 ^ 64 < 2 ^ 63 then ((n % 2 ^ 64 : Nat) : Int)
  else ((n % 2 ^ 64 : Nat) : Int) - 2 ^ 64

/-- UTF-8 continuation byte test (0x80 to 0xBF). -/
def isCont (b : Nat) : Bool := 0x80 ≤ b && b ≤ 0xBF

/-- UTF-8 decoding and validation of a byte sequence into code points,
following the standard byte-range table that the Rust str validation
enforces (rejecting overlong forms, surrogates and values past 0x10FFFF);
none models the InvalidData error of read_to_string. -/
def utf8DecodeCps : List Nat → Option (List Nat)
  | [] => some []
  | b :: rest =>
    if b ≤ 0x7F then
      (utf8DecodeCps rest).map (b :: ·)
    else if 0xC2 ≤ b && b ≤ 0xDF then
      match rest with
      | b1 :: rest1 =>
        if isCont b1 then
          (utf8DecodeCps rest1).map (((b - 0xC0) * 0x40 + (b1 - 0x80)) :: ·)
        else none
      | [] => none
    else if 0xE0 ≤ b && b ≤ 0xEF then
      match rest with
      | b1 :: b2 :: rest2 =>
        if (if b == 0xE0 then decide (0xA0 ≤ b1 && b1 ≤ 0xBF)
            else if b == 0xED then decide (0x80 ≤ b1 && b1 ≤ 0x9F)
            else isCont b1) && isCont b2 then
          (utf8DecodeCps rest2).map
            (((b - 0xE0) * 0x1000 + (b1 - 0x80) * 0x40 + (b2 - 0x80)) :: ·)
        else none
      | _ => none
    else if 0xF0 ≤ b && b ≤ 0xF4 then
      match rest with
      | b1 :: b2 :: b3 :: rest3 =>
        if (if b == 0xF0 then decide (0x90 ≤ b1 && b1 ≤ 0xBF)
            else if b == 0xF4 then decide (0x80 ≤ b1 && b1 ≤ 0x8F)
            else isCont b1) && isCont b2 && isCont b3 then
          (utf8DecodeCps rest3).map
            (((b - 0xF0) * 0x40000 + (b1 - 0x80) * 0x1000 +
              (b2 - 0x80) * 0x40 + (b3 - 0x80)) :: ·)
        else none
      | _ => none
    else none

/-- String built from decoded code points (all code points produced by
utf8DecodeCps are scalar values, on which Char.ofNat is exact). -/
def stringOfCps (cps : List Nat) : String := String.mk (cps.map Char.ofNat)

/-- Result of Read::read_to_string on a byte sequence: the decoded text, or
none for the InvalidData error on malformed UTF-8. -/
def utf8Decode (l : List Nat) : Option String := (utf8DecodeCps l).map stringOfCps

/-- Run hook of file_read (proglib.rs lines 267-306). The opened file is a
parameter: none when File::open fails, otherwise its byte content. The
subject must be a string path; the byte cap is the first argument coerced
by int_arg! and cast isize as u64 by the take adapter; read failure
(including invalid UTF-8) degrades to Null, as does open failure. -/
def fileReadRun (file : Option (List Nat)) (arg0 : ArgOutcome) (val : Val) :
    Except Error Val :=
  match val with
  | .str _ =>
    match int_arg arg0 with
    | .error e => .error e
    | .ok n =>
      .ok (match file with
        | some content =>
          match utf8Decode (content.take (isizeToU64 n)) with
          | some s => .str s
          | none => .null
        | none => .null)
  | _ => .error (.custom "expected string (path) but got \x7bval:?\x7d")

/-- Run hook of file_meta (proglib.rs lines 308-328). The stat result,
already converted through json_meta and Val::from, is a parameter: none
models a stat failure, which degrades to Null. -/
def fileMetaRun (meta : Option Val) (val : Val) : Except Error Val :=
  match val with
  | .str _ =>
    .ok (match meta with
      | some mv => mv
      | none => .null)
  | _ => .error (.custom "expected string (path) but got \x7bval:?\x7d")

/-- Run hook of file_size (proglib.rs lines 330-350). The stat result byte
length (a u64) is a parameter; it is cast u64 as isize into the produced
integer; a stat failure degrades to Null. -/
def fileSizeRun (size : Option Nat) (val : Val) : Except Error Val :=
  match val with
  | .str _ =>
    .ok (match size with
      | some len => .int (u64ToIsize len)
      | none => .null)
  | _ => .error (.custom "expected string (path) but got \x7bval:?\x7d")

/-- UTF-8 encoding of one code point (the bytes of a Rust str are the UTF-8
encoding of its characters). -/
def utf8EncodeChar (c : Nat) : List Nat :=
  if c ≤ 0x7F then [c]
  else if c ≤ 0x7FF then [0xC0 + c / 0x40, 0x80 + c % 0x40]
  else if c ≤ 0xFFFF then
    [0xE0 + c / 0x1000, 0x80 + c / 0x40 % 0x40, 0x80 + c % 0x40]
  else
    [0xF0 + c / 0x40000, 0x80 + c / 0x1000 % 0x40, 0x80 + c / 0x40 % 0x40,
      0x80 + c % 0x40]

/-- Byte content of a string, as string.as_bytes() exposes it. -/
def strBytes (s : String) : List Nat :=
  (s.data.map Char.toNat).flatMap utf8EncodeChar

/-- Run hook of hash (proglib.rs lines 352-368). The blake3 hex digest of a
byte sequence is an external collaborator, supplied as the digest
parameter. -/
def hashRun (digest : List Nat → String) (val : Val) : Except Error Val :=
  match val with
  | .str s => .ok (.str (digest (strBytes s)))
  | _ => .error (.custom "expected string but got \x7bval:?\x7d")

/-- Outcome of one file.read(&mut buf) call in the file_hash loop: a
successfully read chunk (empty at end of file) or an I/O error. -/
inductive ReadResult where
  | chunk (bytes : List Nat)
  | ioErr
deriving Repr, DecidableEq

/-- The file_hash read loop (proglib.rs lines 381-393): while let
Ok(bytes) = file.read(&mut buf) feeds each non-empty chunk to the hasher
(whose state is the byte sequence fed so far) and stops at an empty read;
an Err read also falls out of the while-let, ending the loop the same
way. -/
def fileHashAcc : List ReadResult → List Nat → List Nat
  | [], acc => acc
  | .ioErr :: _, acc => acc
  | .chunk [] :: _, acc => acc
  | .chunk c :: rest, acc => fileHashAcc rest (acc ++ c)

/-- Run hook of file_hash (proglib.rs lines 370-404). The opened file is a
parameter as the sequence of read outcomes its handle produces; open
failure degrades to Null; otherwise the digest of whatever the loop
accumulated is produced. -/
def fileHashRun (digest : List Nat → String) (file : Option (List ReadResult))
    (val : Val) : Except Error Val :=
  match val with
  | .str _ =>
    .ok (match file with
      | some reads => .str (digest (fileHashAcc reads []))
      | none => .null)
  | _ => .error (.custom "expected string but got \x7bval:?\x7d")

/-- Read outcomes of a fully successful sequential read of a file through
the fixed 1 MiB buffer: each read fills min(2^20, remaining) bytes until
none remain. -/
def chunksOf (content : List Nat) : List (List Nat) :=
  if h : content = [] then []
  else content.take (1024 * 1024) :: chunksOf (content.drop (1024 * 1024))
termination_by content.length
decreasing_by
  simp only [List.length_drop]
  have : content.length ≠ 0 := fun hc => h (List.eq_nil_of_length_eq_zero hc)
  omega

/-- Modelled from the spec: the update hook a Native::new registration gets
lives in the jaq_core crate, outside this repository; per the spec, for
every function in this system the update hook is implemented identically to
the plain run hook (these are read/observe/side-effect functions, so
updating degenerates to replacing with the recomputed value). -/
def kvClearUpdate (kv : Kv) (val : Val) (c : UpdateCont) :
    Kv × Except Error Val := kvClearRun kv val

/-- Modelled from the spec: see kvClearUpdate. -/
def kvStoreUpdate (kv : Kv) (arg0 : ArgOutcome) (val : Val) (c : UpdateCont) :
    Kv × Except Error Val := kvStoreRun kv arg0 val

/-- Modelled from the spec: see kvClearUpdate. -/
def kvFetchUpdate (kv : Kv) (arg0 : ArgOutcome) (val : Val) (c : UpdateCont) :
    Kv × Except Error Val := kvFetchRun kv arg0 val

/-- Modelled from the spec: see kvClearUpdate. -/
def fileReadUpdate (file : Option (List Nat)) (arg0 : ArgOutcome) (val : Val)
    (c : UpdateCont) : Except Error Val := fileReadRun file arg0 val

/-- Modelled from the spec: see kvClearUpdate. -/
def fileMetaUpdate (meta : Option Val) (val : Val) (c : UpdateCont) :
    Except Error Val := fileMetaRun meta val

/-- Modelled from the spec: see kvClearUpdate. -/
def fileSizeUpdate (size : Option Nat) (val : Val) (c : UpdateCont) :
    Except Error Val := fileSizeRun size val

/-- Modelled from the spec: see kvClearUpdate. -/
def hashUpdate (digest : List Nat → String) (val : Val) (c : UpdateCont) :
    Except Error Val := hashRun digest val

/-- Modelled from the spec: see kvClearUpdate. -/
def fileHashUpdate (digest : List Nat → String)
    (file : Option (List ReadResult)) (val : Val) (c : UpdateCont) :
    Except Error Val := fileHashRun digest file val

/-- C2: for every native function registered by proglib.rs (log, printout,
printerr, kv_clear, kv_store, kv_fetch, file_read, file_meta, file_size,
hash, file_hash), the update evaluation hook produces exactly the same
output as the plain run hook on every arguments/context/input triple. For
the three Native::with_update registrations the two closures are written
identically in the source; for the eight Native::new registrations the
default update hook is spec-modelled as the run hook. -/
theorem c2_update_hook_eq_run :
    (∀ a v c, logUpdate a v c = logRun a v) ∧
    (∀ v c, printoutUpdate v c = printoutRun v) ∧
    (∀ v c, printerrUpdate v c = printerrRun v) ∧
    (∀ kv v c, kvClearUpdate kv v c = kvClearRun kv v) ∧
    (∀ kv a v c, kvStoreUpdate kv a v c = kvStoreRun kv a v) ∧
    (∀ kv a v c, kvFetchUpdate kv a v c = kvFetchRun kv a v) ∧
    (∀ f a v c, fileReadUpdate f a v c = fileReadRun f a v) ∧
    (∀ m v c, fileMetaUpdate m v c = fileMetaRun m v) ∧
    (∀ s v c, fileSizeUpdate s v c = fileSizeRun s v) ∧
    (∀ d v c, hashUpdate d v c = hashRun d v) ∧
    (∀ d f v c, fileHashUpdate d f v c = fileHashRun d f v) :=
  ⟨fun _ _ _ => rfl, fun _ _ => rfl, fun _ _ => rfl, fun _ _ _ => rfl,
    fun _ _ _ _ => rfl, fun _ _ _ _ => rfl, fun _ _ _ _ => rfl,
    fun _ _ _ => rfl, fun _ _ _ => rfl, fun _ _ _ => rfl,
    fun _ _ _ _ => rfl⟩

/-- C4: pass-through contract of the side-effect functions: whenever log,
printout, printerr, kv_store or kv_clear succeeds (argument coercion and,
for log, level validation do not fail), its single output is exactly the
original input value. -/
theorem c4_passthrough :
    (∀ a v w, logRun a v = .ok w → w = v) ∧
    (∀ v w, printoutRun v = .ok w → w = v) ∧
    (∀ v w, printerrRun v = .ok w → w = v) ∧
    (∀ kv a v kv2 w, kvStoreRun kv a v = (kv2, .ok w) → w = v) ∧
    (∀ kv v kv2 w, kvClearRun kv v = (kv2, .ok w) → w = v) := by
  refine ⟨?_, ?_, ?_, ?_, ?_⟩
  · intro a v w h
    simp only [logRun] at h
    cases ha : string_arg a with
    | error e => rw [ha] at h; cases h
    | ok level =>
      rw [ha] at h
      by_cases hl : logLevelKnown (asciiLowercase level) = true
      · simp [hl] at h; exact h.symm
      · simp [Bool.not_eq_true] at hl; simp [hl] at h
  · intro v w h
    simp only [printoutRun] at h
    exact (Except.ok.inj h).symm
  · intro v w h
    simp only [printerrRun] at h
    exact (Except.ok.inj h).symm
  · intro kv a v kv2 w h
    simp only [kvStoreRun] at h
    cases ha : string_arg a with
    | error e => rw [ha] at h; simp at h
    | ok key => rw [ha] at h; simp at h; exact h.2.symm
  · intro kv v kv2 w h
    simp only [kvClearRun] at h
    simp at h
    exact h.2.symm

theorem c4_passthrough_witness :
    Val.int 9 = Val.int 9 ∧ Val.str "e" = Val.str "e" :=
  ⟨c4_passthrough.1 (some (.ok (.str "info"))) (.int 9) (.int 9) rfl,
    c4_passthrough.2.2.2.1 [] (some (.ok (.str "k"))) (.str "e") _ (.str "e") rfl⟩

/-- C5: three-way dispatch of the argument coercion helpers string_arg! and
int_arg!: no produced value fails with the fixed message; a produced error
propagates unchanged; a first value of the wrong runtime tag fails with the
expected-but-got message; a value of the right tag is returned coerced. -/
theorem c5_arg_coercion :
    (string_arg none = .error (.custom "value expected but none found") ∧
      int_arg none = .error (.custom "value expected but none found")) ∧
    (∀ e, string_arg (some (.error e)) = .error e ∧
      int_arg (some (.error e)) = .error e) ∧
    (∀ v, (∀ s, v ≠ .str s) →
      string_arg (some (.ok v)) =
        .error (.custom ("expected string but got " ++ debugVal v))) ∧
    (∀ v, (∀ i, v ≠ .int i) →
      int_arg (some (.ok v)) =
        .error (.custom ("expected int but got " ++ debugVal v))) ∧
    (∀ s, string_arg (some (.ok (.str s))) = .ok s) ∧
    (∀ i, int_arg (some (.ok (.int i))) = .ok i) := by
  refine ⟨⟨rfl, rfl⟩, fun e => ⟨rfl, rfl⟩, ?_, ?_, fun s => rfl, fun i => rfl⟩
  · intro v hv
    cases v with
    | str s => exact absurd rfl (hv s)
    | null => rfl
    | bool b => rfl
    | int i => rfl
    | float f => rfl
    | num s => rfl
    | arr a => rfl
    | obj m => rfl
  · intro v hv
    cases v with
    | int i => exact absurd rfl (hv i)
    | null => rfl
    | bool b => rfl
    | float f => rfl
    | num s => rfl
    | str s => rfl
    | arr a => rfl
    | obj m => rfl

theorem c5_arg_coercion_witness :
    string_arg (some (.ok (.int 5))) =
      .error (.custom ("expected string but got " ++ debugVal (.int 5))) ∧
    int_arg (some (.ok (.str "p"))) =
      .error (.custom ("expected int but got " ++ debugVal (.str "p"))) :=
  ⟨c5_arg_coercion.2.2.1 (.int 5) (fun s h => Val.noConfusion h),
    c5_arg_coercion.2.2.2.1 (.str "p") (fun i h => Val.noConfusion h)⟩

/-- C9: log level dispatch: the first argument of log is lowercased
ASCII-wise and matched against the five level names; outside that set the
evaluation fails with the invalid log level error and the input value is
not passed through; on a recognized level the input value passes through
unchanged. -/
theorem c9_log_level_dispatch (level : String) (v : Val) :
    (logLevelKnown (asciiLowercase level) = false →
      logRun (some (.ok (.str level))) v =
        .error (.custom "invalid log level")) ∧
    (logLevelKnown (asciiLowercase level) = true →
      logRun (some (.ok (.str level))) v = .ok v) ∧
    (logLevelKnown (asciiLowercase level) = true ↔
      asciiLowercase level = "trace" ∨ asciiLowercase level = "debug" ∨
      asciiLowercase level = "info" ∨ asciiLowercase level = "warn" ∨
      asciiLowercase level = "error") := by
  refine ⟨?_, ?_, ?_⟩
  · intro h
    simp [logRun, string_arg, h]
  · intro h
    simp [logRun, string_arg, h]
  · simp [logLevelKnown]
    tauto

theorem c9_log_level_dispatch_witness :
    logRun (some (.ok (.str "WARN"))) (.int 1) = .ok (.int 1) ∧
    logRun (some (.ok (.str "bogus"))) (.int 1) =
      .error (.custom "invalid log level") :=
  ⟨(c9_log_level_dispatch "WARN" (.int 1)).2.1 (by decide),
    (c9_log_level_dispatch "bogus" (.int 1)).1 (by decide)⟩

theorem kvLookup_replace (kv : Kv) (k : String) (sv : SyncVal)
    (h : keyMem k kv = true) :
    kvLookup (kv.map (fun p => if p.1 == k then (k, sv) else p)) k = some sv := by
  induction kv with
  | nil => cases h
  | cons p ps ih =>
    by_cases hp : p.1 = k
    · simp [kvLookup, hp]
    · have h2 : keyMem k ps = true := by
        rw [keyMem, Bool.or_eq_true, beq_iff_eq] at h
        rcases h with h | h
        · exact absurd h.symm hp
        · exact h
      have hb : (p.1 == k) = false := by simp [hp]
      have hb2 : (k == p.1) = false := by simp [Ne.symm hp]
      simp only [List.map_cons, hb, Bool.false_eq_true, if_false]
      rw [kvLookup]
      simp only [hb2, Bool.false_eq_true, if_false]
      exact ih h2

theorem kvLookup_append_self (kv : Kv) (k : String) (sv : SyncVal)
    (h : keyMem k kv = false) :
    kvLookup (kv ++ [(k, sv)]) k = some sv := by
  induction kv with
  | nil => simp [kvLookup]
  | cons p ps ih =>
    rw [keyMem, Bool.or_eq_false_iff] at h
    rw [List.cons_append, kvLookup]
    simp only [h.1, Bool.false_eq_true, if_false]
    exact ih h.2

theorem kvLookup_indexInsert (kv : Kv) (k : String) (sv : SyncVal) :
    kvLookup (indexInsert kv k sv) k = some sv := by
  rw [indexInsert]
  by_cases h : keyMem k kv = true
  · rw [if_pos h]
    exact kvLookup_replace kv k sv h
  · rw [Bool.not_eq_true] at h
    rw [h]
    simp only [Bool.false_eq_true, if_false]
    exact kvLookup_append_self kv k sv h

/-- C3: key-value store contract: kv_store under key k on input V followed
by kv_fetch of k (in the same process, i.e. on the store state the kv_store
call produced) yields the mirror round-trip of V; kv_fetch of an absent key
yields Null without error; and kv_fetch with a well-coerced key argument
never fails, whatever the store holds. -/
theorem c3_kv_store_fetch (kv : Kv) (k : String) (V w : Val) :
    (kvFetchRun (kvStoreRun kv (some (.ok (.str k))) V).1
        (some (.ok (.str k))) w =
      ((kvStoreRun kv (some (.ok (.str k))) V).1,
        .ok (syncToVal (valToSync V)))) ∧
    (kvLookup kv k = none →
      kvFetchRun kv (some (.ok (.str k))) w = (kv, .ok .null)) ∧
    (∃ out, kvFetchRun kv (some (.ok (.str k))) w = (kv, .ok out)) := by
  refine ⟨?_, ?_, ?_⟩
  · simp only [kvStoreRun, kvFetchRun, string_arg]
    rw [kvLookup_indexInsert]
  · intro h
    simp only [kvFetchRun, string_arg]
    rw [h]
  · simp only [kvFetchRun, string_arg]
    cases kvLookup kv k with
    | none => exact ⟨.null, rfl⟩
    | some sv => exact ⟨syncToVal sv, rfl⟩

theorem c3_kv_store_fetch_witness :
    (kvFetchRun (kvStoreRun [] (some (.ok (.str "k"))) (.int 7)).1
        (some (.ok (.str "k"))) .null =
      ((kvStoreRun [] (some (.ok (.str "k"))) (.int 7)).1,
        .ok (syncToVal (valToSync (.int 7))))) ∧
    kvFetchRun [] (some (.ok (.str "k"))) .null = ([], .ok .null) :=
  ⟨(c3_kv_store_fetch [] "k" (.int 7) .null).1,
    (c3_kv_store_fetch [] "k" (.int 7) .null).2.1 rfl⟩

theorem fileHashAcc_chunks_append (parts : List (List Nat))
    (tail : List ReadResult) (acc : List Nat) (h : ∀ c ∈ parts, c ≠ []) :
    fileHashAcc (parts.map .chunk ++ tail) acc =
      fileHashAcc tail (acc ++ parts.flatten) := by
  induction parts generalizing acc with
  | nil => simp
  | cons c cs ih =>
    cases c with
    | nil => exact absurd rfl (h [] (by simp))
    | cons b bs =>
      simp only [List.map_cons, List.cons_append]
      rw [fileHashAcc, ih (acc ++ b :: bs) (fun c hc => h c (by simp [hc]))]
      · simp
      · exact fun hc => List.noConfusion hc

theorem chunksOf_flatten (content : List Nat) :
    (chunksOf content).flatten = content := by
  by_cases h : content = []
  · subst h
    rw [chunksOf]
    simp
  · rw [chunksOf]
    rw [dif_neg h, List.flatten_cons,
      chunksOf_flatten (content.drop (1024 * 1024))]
    exact List.take_append_drop _ _
termination_by content.length
decreasing_by
  simp only [List.length_drop]
  have : content.length ≠ 0 := fun hc => h (List.eq_nil_of_length_eq_zero hc)
  omega

theorem chunksOf_ne_nil (content : List Nat) :
    ∀ c ∈ chunksOf content, c ≠ [] := by
  by_cases h : content = []
  · subst h
    rw [chunksOf]
    simp
  · rw [chunksOf, dif_neg h]
    intro c hc
    rcases List.mem_cons.mp hc with hc | hc
    · subst hc
      rw [Ne, List.take_eq_nil_iff]
      push_neg
      exact ⟨by norm_num, h⟩
    · exact chunksOf_ne_nil (content.drop (1024 * 1024)) c hc
termination_by content.length
decreasing_by
  simp only [List.length_drop]
  have : content.length ≠ 0 := fun hc => h (List.eq_nil_of_length_eq_zero hc)
  omega

theorem chunksOf_length_le (content : List Nat) :
    ∀ c ∈ chunksOf content, c.length ≤ 1024 * 1024 := by
  by_cases h : content = []
  · subst h
    rw [chunksOf]
    simp
  · rw [chunksOf, dif_neg h]
    intro c hc
    rcases List.mem_cons.mp hc with hc | hc
    · subst hc
      exact List.length_take_le _ _
    · exact chunksOf_length_le (content.drop (1024 * 1024)) c hc
termination_by content.length
decreasing_by
  simp only [List.length_drop]
  have : content.length ≠ 0 := fun hc => h (List.eq_nil_of_length_eq_zero hc)
  omega

/-- C6: file_hash streaming equivalence: on a file whose sequential reads
through the fixed 1 MiB buffer all succeed (each read fills min(2^20,
remaining) bytes), the streamed digest equals the digest of the whole
content in one step, for every digest function; every chunk fed to the
hasher is at most 1 MiB long (the bounded-memory property of the fixed
buffer); and on an empty file the digest of the empty byte sequence is
produced. -/
theorem c6_file_hash_stream (digest : List Nat → String) (content : List Nat)
    (path : String) :
    fileHashRun digest (some ((chunksOf content).map .chunk)) (.str path) =
      .ok (.str (digest content)) ∧
    (∀ c ∈ chunksOf content, c.length ≤ 1024 * 1024) ∧
    fileHashRun digest (some ((chunksOf []).map .chunk)) (.str path) =
      .ok (.str (digest [])) := by
  refine ⟨?_, chunksOf_length_le content, ?_⟩
  · simp only [fileHashRun]
    rw [← List.append_nil ((chunksOf content).map ReadResult.chunk),
      fileHashAcc_chunks_append (chunksOf content) [] []
        (chunksOf_ne_nil content),
      fileHashAcc, List.nil_append, chunksOf_flatten]
  · simp only [fileHashRun]
    rw [chunksOf]
    simp [fileHashAcc]

theorem c6_file_hash_stream_witness :
    fileHashRun (fun bytes => "d") (some ((chunksOf [1, 2, 3]).map .chunk))
      (.str "/tmp/f") = .ok (.str "d") :=
  (c6_file_hash_stream (fun bytes => "d") [1, 2, 3] "/tmp/f").1

/-- C8: a read error partway through the file_hash read loop is not
distinguished from end-of-file: the while-let ends and file_hash produces
the hex digest of the bytes hashed so far — a string, not Null and not an
evaluation error. -/
theorem c8_file_hash_read_error (digest : List Nat → String)
    (good : List (List Nat)) (rest : List ReadResult) (path : String)
    (h : ∀ c ∈ good, c ≠ []) :
    fileHashRun digest (some (good.map .chunk ++ .ioErr :: rest)) (.str path) =
      .ok (.str (digest good.flatten)) := by
  simp only [fileHashRun]
  rw [fileHashAcc_chunks_append good (.ioErr :: rest) [] h, fileHashAcc,
    List.nil_append]

theorem c8_file_hash_read_error_witness :
    fileHashRun (fun bytes => "h") (some [.chunk [7], .ioErr]) (.str "/f") =
      .ok (.str "h") :=
  c8_file_hash_read_error (fun bytes => "h") [[7]] [] "/f" (by decide)

/-- C7: bounded read contract of file_read: the take adapter caps the bytes
read at the argument value (cast isize as u64); a file whose content is
shorter than the cap is read in full and produced as its decoded text, with
no padding and no error; an unopenable path degrades to Null. -/
theorem c7_file_read_bounded (content : List Nat) (n : Int) (path : String)
    (s : String) (hlen : content.length < isizeToU64 n)
    (hdec : utf8Decode content = some s) :
    (∀ c2 : List Nat, (c2.take (isizeToU64 n)).length ≤ isizeToU64 n) ∧
    content.take (isizeToU64 n) = content ∧
    fileReadRun (some content) (some (.ok (.int n))) (.str path) =
      .ok (.str s) ∧
    fileReadRun none (some (.ok (.int n))) (.str path) = .ok .null := by
  have htake : content.take (isizeToU64 n) = content :=
    List.take_of_length_le (le_of_lt hlen)
  refine ⟨fun c2 => List.length_take_le _ _, htake, ?_, rfl⟩
  simp only [fileReadRun, int_arg]
  rw [htake, hdec]

theorem c7_file_read_bounded_witness :
    List.take (isizeToU64 10) [104, 105] = [104, 105] ∧
    fileReadRun (some [104, 105]) (some (.ok (.int 10))) (.str "/tmp/t") =
      .ok (.str "hi") :=
  ⟨(c7_file_read_bounded [104, 105] 10 "/tmp/t" "hi" (by decide)
      (by decide)).2.1,
    (c7_file_read_bounded [104, 105] 10 "/tmp/t" "hi" (by decide)
      (by decide)).2.2.1⟩

/-- C10: implicit UTF-8 edge of file_read: when the bytes of the opened file
under the cap do not form valid UTF-8 — in particular when the cap falls
inside a multi-byte character of a longer file — the read into a string
fails and file_read produces Null: no truncated or lossily decoded string
and no evaluation error. -/
theorem c10_file_read_invalid_utf8 (content : List Nat) (n : Int)
    (path : String)
    (hdec : utf8Decode (content.take (isizeToU64 n)) = none) :
    fileReadRun (some content) (some (.ok (.int n))) (.str path) =
      .ok .null := by
  simp only [fileReadRun, int_arg]
  rw [hdec]

theorem c10_file_read_invalid_utf8_witness :
    fileReadRun (some [195, 169]) (some (.ok (.int 1))) (.str "/tmp/u") =
      .ok .null :=
  c10_file_read_invalid_utf8 [195, 169] 1 "/tmp/u" (by decide)
